import Mathlib

/-
Verification of the fredb YCSB binding (db.go): a table-scoped record store
over an ordered, transactional key-value engine. The store operations
(Read, Scan, Update, Insert, Delete) are embedded from db.go; the external
engine (buckets, cursors) and the row codec, as well as the batch variants,
are modelled from their contracts in the specification.
-/

set_option autoImplicit false

namespace FreDB

/-- A byte string, the value type of fields (Go `[]byte`). -/
abbrev Bytes := List Nat

/-- A field map: a string-keyed mapping from field name to byte string
(Go `map[string][]byte`), represented as an association list. -/
abbrev FieldMap := List (String × Bytes)

/-- First-match association lookup on a field map. -/
def lookupF : FieldMap → String → Option Bytes
  | [], _ => none
  | (g, v) :: rest, k => if k = g then some v else lookupF rest k

/-- Set or overwrite one field, mirroring Go map assignment `data[field] = value`. -/
def setField : FieldMap → String → Bytes → FieldMap
  | [], k, v => [(k, v)]
  | (g, w) :: rest, k, v =>
    if k = g then (k, v) :: rest else (g, w) :: setField rest k v

/-- Field names present in a field map. -/
def fieldKeys (m : FieldMap) : List String := m.map (fun p => p.1)

/-- Modelled from the spec: a serialized row as produced/consumed by the
external row codec (§6). `good m` is a row that decodes to the field map `m`;
`bad` stands for row bytes the codec cannot decode (CodecError, §7). -/
inductive Row where
  | good (m : FieldMap)
  | bad
deriving DecidableEq

/-- The error taxonomy of §7, as surfaced by the store operations in db.go
(`table not found`, `key not found`, codec decode failures). -/
inductive DBErr where
  | tableNotFound
  | keyNotFound
  | codecError
deriving DecidableEq

/-- Modelled from the spec: the codec contract `Decode(row, fields)` (§6).
With an empty/absent filter the full map is returned; with a non-empty filter
only the named fields present in the map are returned, never fabricated (§4.3). -/
def decode (r : Row) (fields : List String) : Except DBErr FieldMap :=
  match r with
  | .bad => .error .codecError
  | .good m => .ok (if fields = [] then m else m.filter (fun p => decide (p.1 ∈ fields)))

/-- Modelled from the spec: the codec contract `Encode(buffer, fields)` (§6);
encoding a field map yields a row that decodes back to it. -/
def encode (m : FieldMap) : Except DBErr Row := .ok (.good m)

/-- The engine's key order: lexicographic over the key's characters, matching
the byte-string lexicographic order of §4.4 (code-point order coincides with
UTF-8 byte order). -/
abbrev keyLt (a b : String) : Prop := a.data < b.data

/-- Non-strict companion of `keyLt`. -/
abbrev keyLe (a b : String) : Prop := a.data ≤ b.data

/-- Modelled from the spec: a bucket (table) of the external engine, an ordered
key-to-row store kept sorted strictly ascending by key (§6: cursors iterate in
ascending key order). -/
abbrev Table := List (String × Row)

/-- Engine contract `bucket.Get(key) -> bytes | absent`. -/
def bucketGet : Table → String → Option Row
  | [], _ => none
  | (g, r) :: rest, k => if k = g then some r else bucketGet rest k

/-- Engine contract `bucket.Put(key, bytes)`: order-preserving insert,
replacing any existing row under the same key. -/
def bucketPut : Table → String → Row → Table
  | [], k, r => [(k, r)]
  | (g, w) :: rest, k, r =>
    if keyLt k g then (k, r) :: (g, w) :: rest
    else if k = g then (k, r) :: rest
    else (g, w) :: bucketPut rest k r

/-- Engine contract `bucket.Delete(key)`: remove the key if present;
absence is not an error. -/
def bucketDelete : Table → String → Table
  | [], _ => []
  | (g, w) :: rest, k => if k = g then rest else (g, w) :: bucketDelete rest k

/-- Engine contract `cursor.Seek(key)`: position at the first key ≥ the
start key of an ascending-order bucket; `Next` then walks the suffix. -/
def cursorSeek (b : Table) (startKey : String) : Table :=
  b.dropWhile (fun p => decide (keyLt p.1 startKey))

/-- The engine state: named buckets (tables), created lazily on first write. -/
abbrev Store := List (String × Table)

/-- Engine contract `tx.Bucket(name) -> handle | absent` (no implicit creation). -/
def lookupTable : Store → String → Option Table
  | [], _ => none
  | (g, b) :: rest, t => if t = g then some b else lookupTable rest t

/-- Replace the named table's contents, or append the table if absent
(the effect of writing through a bucket handle inside a committed transaction). -/
def setTable : Store → String → Table → Store
  | [], t, b => [(t, b)]
  | (g, w) :: rest, t, b =>
    if t = g then (t, b) :: rest else (g, w) :: setTable rest t b

/-- The read-write transaction runner (`db.db.Update` in db.go): run the body,
commit the new state iff the body returns no error, roll back (keep the old
state) and surface the error otherwise (§4.1). -/
def runWrite (s : Store) (body : Store → Except DBErr Store) : Option DBErr × Store :=
  match body s with
  | .ok s2 => (none, s2)
  | .error e => (some e, s)

/-- Body of `freDB.Read` (db.go:108-126): resolve the table (TableNotFound if
absent), point-lookup the key (KeyNotFound if absent), decode with the filter. -/
def readBody (s : Store) (table key : String) (fields : List String) : Except DBErr FieldMap :=
  match lookupTable s table with
  | none => .error .tableNotFound
  | some bucket =>
    match bucketGet bucket key with
    | none => .error .keyNotFound
    | some row => decode row fields

/-- `freDB.Read`: a read-only transaction around `readBody`. -/
def Read (s : Store) (table key : String) (fields : List String) : Except DBErr FieldMap :=
  readBody s table key fields

/-- The overlay of `freDB.Update` (db.go:170-172):
`for field, value := range values { data[field] = value }`. -/
def overlay (data : FieldMap) (values : FieldMap) : FieldMap :=
  values.foldl (fun d p => setField d p.1 p.2) data

/-- Body of `freDB.Update` (db.go:153-187): resolve table, look up the key,
decode the existing row with no filter, overlay the changes, re-encode and
put back under the same key. -/
def updateBody (table key : String) (values : FieldMap) (s : Store) : Except DBErr Store :=
  match lookupTable s table with
  | none => .error .tableNotFound
  | some bucket =>
    match bucketGet bucket key with
    | none => .error .keyNotFound
    | some row =>
      match decode row [] with
      | .error e => .error e
      | .ok data =>
        match encode (overlay data values) with
        | .error e => .error e
        | .ok buf => .ok (setTable s table (bucketPut bucket key buf))

/-- `freDB.Update`: one read-write transaction around `updateBody`. -/
def Update (s : Store) (table key : String) (values : FieldMap) : Option DBErr × Store :=
  runWrite s (updateBody table key values)

/-- Body of `freDB.Insert` (db.go:189-209): resolve-or-create the table
(`CreateBucketIfNotExists`), encode the full field map, put it under the key. -/
def insertBody (table key : String) (values : FieldMap) (s : Store) : Except DBErr Store :=
  match encode values with
  | .error e => .error e
  | .ok buf => .ok (setTable s table (bucketPut ((lookupTable s table).getD []) key buf))

/-- `freDB.Insert`: one read-write transaction around `insertBody`. -/
def Insert (s : Store) (table key : String) (values : FieldMap) : Option DBErr × Store :=
  runWrite s (insertBody table key values)

/-- Body of `freDB.Delete` (db.go:211-226): a missing table is a successful
no-op; otherwise remove the key (absence of the key also not an error). -/
def deleteBody (table key : String) (s : Store) : Except DBErr Store :=
  match lookupTable s table with
  | none => .ok s
  | some bucket => .ok (setTable s table (bucketDelete bucket key))

/-- `freDB.Delete`: one read-write transaction around `deleteBody`. -/
def Delete (s : Store) (table key : String) : Option DBErr × Store :=
  runWrite s (deleteBody table key)

/-- The cursor loop of `freDB.Scan` (db.go:138-146): walk the entries from the
seek position while the cursor yields keys and fewer than `count` results are
filled; a decode error aborts the loop, leaving the already-filled prefix in
the result slice and the remaining entries nil. -/
def scanLoop (fields : List String) : Table → Nat → List (Option FieldMap) × Option DBErr
  | _, 0 => ([], none)
  | [], n => (List.replicate n none, none)
  | e :: rest, n + 1 =>
    match decode e.2 fields with
    | .error err => (List.replicate (n + 1) none, some err)
    | .ok m =>
      let r := scanLoop fields rest n
      (some m :: r.1, r.2)

/-- Outcome of one `freDB.Scan` call: `make([]map[string][]byte, count)` with a
negative count faults at run time before the transaction opens; otherwise the
call returns the length-`count` result slice together with an optional error. -/
inductive ScanOutcome where
  | panicked
  | returned (res : List (Option FieldMap)) (err : Option DBErr)
deriving DecidableEq

/-- `freDB.Scan` (db.go:128-151): allocate the length-`count` result slice
(faulting on a negative count), resolve the table (returning the untouched
slice with TableNotFound if absent), seek to the start key and run the loop;
the slice is returned even when the loop errors. -/
def Scan (s : Store) (table startKey : String) (count : Int) (fields : List String) : ScanOutcome :=
  if count < 0 then .panicked
  else
    match lookupTable s table with
    | none => .returned (List.replicate count.toNat none) (some .tableNotFound)
    | some bucket =>
      let r := scanLoop fields (cursorSeek bucket startKey) count.toNat
      .returned r.1 r.2

/-- Sequential composition of per-key transaction bodies inside one
transaction: stop at the first error, thread the state otherwise. -/
def runSeq : List (Store → Except DBErr Store) → Store → Except DBErr Store
  | [], s => .ok s
  | f :: fs, s =>
    match f s with
    | .error e => .error e
    | .ok s2 => runSeq fs s2

/-- Modelled from the spec: `BatchInsert` (§4.8), absent from the provided
sources — per-key Insert semantics over the paired key/value lists inside one
read-write transaction, all-or-nothing. -/
def BatchInsert (s : Store) (table : String) (ks : List String) (vs : List FieldMap) :
    Option DBErr × Store :=
  runWrite s (runSeq ((ks.zip vs).map (fun p => insertBody table p.1 p.2)))

/-- Modelled from the spec: `BatchUpdate` (§4.8), absent from the provided
sources — per-key Update semantics over the paired key/value lists inside one
read-write transaction, all-or-nothing. -/
def BatchUpdate (s : Store) (table : String) (ks : List String) (vs : List FieldMap) :
    Option DBErr × Store :=
  runWrite s (runSeq ((ks.zip vs).map (fun p => updateBody table p.1 p.2)))

/-- Modelled from the spec: `BatchDelete` (§4.8), absent from the provided
sources — per-key Delete semantics (no-op on missing table or key) inside one
read-write transaction. -/
def BatchDelete (s : Store) (table : String) (ks : List String) : Option DBErr × Store :=
  runWrite s (runSeq (ks.map (fun k => deleteBody table k)))

/-- Modelled from the spec: the per-key loop of `BatchRead` (§4.8), absent from
the provided sources — per-key Read against the one read-only snapshot, results
in input key order, aborting on the first error with no partial results. -/
def batchReadLoop (s : Store) (table : String) (fields : List String) :
    List String → Except DBErr (List FieldMap)
  | [] => .ok []
  | k :: rest =>
    match readBody s table k fields with
    | .error e => .error e
    | .ok m =>
      match batchReadLoop s table fields rest with
      | .error e => .error e
      | .ok ms => .ok (m :: ms)

/-- Modelled from the spec: `BatchRead` (§4.8) — one read-only transaction
around the per-key read loop. -/
def BatchRead (s : Store) (table : String) (ks : List String) (fields : List String) :
    Except DBErr (List FieldMap) :=
  batchReadLoop s table fields ks

/-! ### Basic lemmas about the embedded maps -/

theorem lookupTable_setTable_self (s : Store) (t : String) (b : Table) :
    lookupTable (setTable s t b) t = some b := by
  induction s with
  | nil => simp [setTable, lookupTable]
  | cons hd rest ih =>
    obtain ⟨g, w⟩ := hd
    by_cases h : t = g <;> simp [setTable, lookupTable, h, ih]

theorem bucketGet_bucketPut_self (b : Table) (k : String) (r : Row) :
    bucketGet (bucketPut b k r) k = some r := by
  induction b with
  | nil => simp [bucketPut, bucketGet]
  | cons hd rest ih =>
    obtain ⟨g, w⟩ := hd
    by_cases hlt : keyLt k g
    · simp [bucketPut, bucketGet, hlt]
    · by_cases heq : k = g
      · simp [bucketPut, bucketGet, hlt, heq]
      · simp [bucketPut, bucketGet, hlt, heq, ih]

theorem lookupF_setField (d : FieldMap) (k : String) (v : Bytes) (f : String) :
    lookupF (setField d k v) f = if f = k then some v else lookupF d f := by
  induction d with
  | nil =>
    by_cases h : f = k <;> simp [setField, lookupF, h]
  | cons hd rest ih =>
    obtain ⟨g, w⟩ := hd
    by_cases hkg : k = g
    · subst hkg
      by_cases hfk : f = k <;> simp [setField, lookupF, hfk]
    · by_cases hfg : f = g
      · subst hfg
        have hfk : ¬ f = k := fun h => hkg h.symm
        simp [setField, lookupF, hkg, hfk, ih]
      · simp [setField, lookupF, hkg, hfg, ih]

theorem lookupF_eq_none (m : FieldMap) (f : String) (h : f ∉ fieldKeys m) :
    lookupF m f = none := by
  induction m with
  | nil => simp [lookupF]
  | cons hd rest ih =>
    obtain ⟨g, w⟩ := hd
    simp only [fieldKeys, List.map_cons, List.mem_cons] at h
    push_neg at h
    simp [lookupF, h.1, ih (by simpa [fieldKeys] using h.2)]

theorem lookupF_overlay (M values : FieldMap) (hnd : (fieldKeys values).Nodup) (f : String) :
    lookupF (overlay M values) f
      = match lookupF values f with
        | some v => some v
        | none => lookupF M f := by
  induction values generalizing M with
  | nil => simp [overlay, lookupF]
  | cons hd rest ih =>
    obtain ⟨a, b⟩ := hd
    simp only [fieldKeys, List.map_cons, List.nodup_cons] at hnd
    have step : overlay M ((a, b) :: rest) = overlay (setField M a b) rest := rfl
    rw [step, ih (setField M a b) (by simpa [fieldKeys] using hnd.2)]
    by_cases hfa : f = a
    · subst hfa
      have hnone : lookupF rest f = none :=
        lookupF_eq_none rest f (by simpa [fieldKeys] using hnd.1)
      simp [lookupF, hnone, lookupF_setField]
    · simp only [lookupF, if_neg hfa]
      cases hrest : lookupF rest f with
      | some v => simp
      | none => simp [lookupF_setField, hfa]

theorem lookupF_filter (M : FieldMap) (fields : List String) (f : String) :
    lookupF (M.filter (fun p => decide (p.1 ∈ fields))) f
      = if f ∈ fields then lookupF M f else none := by
  induction M with
  | nil => by_cases h : f ∈ fields <;> simp [lookupF, h]
  | cons hd rest ih =>
    obtain ⟨g, w⟩ := hd
    by_cases hg : g ∈ fields
    · by_cases hfg : f = g
      · subst hfg
        simp [List.filter_cons, hg, lookupF]
      · simp [List.filter_cons, hg, lookupF, hfg, ih]
    · by_cases hfg : f = g
      · subst hfg
        simp [List.filter_cons, hg, lookupF, ih, hg]
      · simp [List.filter_cons, hg, lookupF, hfg, ih]

/-! ### Claim theorems -/

/-- C1: inserting a non-empty field map and then reading the same table/key
with no field filter returns exactly the inserted field map — the round trip
of Encode via Insert and Decode via Read is the identity on the field map. -/
theorem insert_read_roundtrip (s : Store) (table key : String) (m : FieldMap)
    (_hm : m ≠ []) :
    Read (Insert s table key m).2 table key [] = .ok m := by
  have h2 : (Insert s table key m).2
      = setTable s table (bucketPut ((lookupTable s table).getD []) key (.good m)) := rfl
  rw [h2]
  simp [Read, readBody, lookupTable_setTable_self, bucketGet_bucketPut_self, decode]

/-- Witness for C1 at a concrete non-empty field map. -/
theorem insert_read_roundtrip_witness :
    Read (Insert [] "tbl" "k1" [("field0", [7])]).2 "tbl" "k1" [] = .ok [("field0", [7])] :=
  insert_read_roundtrip [] "tbl" "k1" [("field0", [7])] (by decide)

/-- C2: a successful Update with a partial change map `values` on a record
whose stored row decodes to `M` leaves the stored row decoding to the overlay
of `values` onto `M`: every field named in `values` has the new value, every
field of `M` not named in `values` is unchanged. -/
theorem update_overlay_merge (s : Store) (table key : String) (values M : FieldMap)
    (b : Table) (row : Row)
    (hnd : (fieldKeys values).Nodup)
    (hb : lookupTable s table = some b)
    (hr : bucketGet b key = some row)
    (hd : decode row [] = .ok M) :
    Update s table key values
      = (none, setTable s table (bucketPut b key (.good (overlay M values))))
    ∧ decode (.good (overlay M values)) [] = .ok (overlay M values)
    ∧ ∀ f, lookupF (overlay M values) f
        = match lookupF values f with
          | some v => some v
          | none => lookupF M f := by
  have hrow : row = .good M := by
    cases row with
    | bad => simp [decode] at hd
    | good m =>
      simp [decode] at hd
      rw [hd]
  subst hrow
  refine ⟨?_, rfl, fun f => lookupF_overlay M values hnd f⟩
  simp [Update, runWrite, updateBody, hb, hr, decode, encode]

/-- Witness for C2: scenario 2 of the spec, updating one of two fields. -/
theorem update_overlay_merge_witness :
    Update [("tbl", [("k1", Row.good [("field0", [0]), ("field1", [1])])])] "tbl" "k1"
        [("field0", [9])]
      = (none, setTable [("tbl", [("k1", Row.good [("field0", [0]), ("field1", [1])])])] "tbl"
          (bucketPut [("k1", Row.good [("field0", [0]), ("field1", [1])])] "k1"
            (.good (overlay [("field0", [0]), ("field1", [1])] [("field0", [9])]))))
    ∧ decode (.good (overlay [("field0", [0]), ("field1", [1])] [("field0", [9])])) []
        = .ok (overlay [("field0", [0]), ("field1", [1])] [("field0", [9])])
    ∧ ∀ f, lookupF (overlay [("field0", [0]), ("field1", [1])] [("field0", [9])]) f
        = match lookupF [("field0", [9])] f with
          | some v => some v
          | none => lookupF [("field0", [0]), ("field1", [1])] f :=
  update_overlay_merge [("tbl", [("k1", Row.good [("field0", [0]), ("field1", [1])])])]
    "tbl" "k1" [("field0", [9])] [("field0", [0]), ("field1", [1])]
    [("k1", Row.good [("field0", [0]), ("field1", [1])])]
    (Row.good [("field0", [0]), ("field1", [1])])
    (by decide) rfl rfl rfl

theorem runSeq_deleteBody_missing (s : Store) (table : String) (ks : List String)
    (h : lookupTable s table = none) :
    runSeq (ks.map (fun k => deleteBody table k)) s = .ok s := by
  induction ks with
  | nil => rfl
  | cons k rest ih => simp [runSeq, deleteBody, h, ih]

/-- C3: against a missing table, Read fails with TableNotFound, Scan (for any
non-negative count) fails with TableNotFound, Update fails with TableNotFound
and leaves the store unchanged, while Delete and BatchDelete succeed leaving
the store unchanged; against an existing table and a missing key, Read and
Update fail with KeyNotFound (Update leaving the store unchanged) while
Delete succeeds. -/
theorem missing_table_and_key_errors (s : Store) (table key : String)
    (fields : List String) (values : FieldMap) (count : Int) (ks : List String) (b : Table) :
    (lookupTable s table = none →
      Read s table key fields = .error .tableNotFound
      ∧ (0 ≤ count → Scan s table key count fields
          = .returned (List.replicate count.toNat none) (some .tableNotFound))
      ∧ Update s table key values = (some .tableNotFound, s)
      ∧ Delete s table key = (none, s)
      ∧ BatchDelete s table ks = (none, s))
    ∧ (lookupTable s table = some b → bucketGet b key = none →
      Read s table key fields = .error .keyNotFound
      ∧ Update s table key values = (some .keyNotFound, s)
      ∧ (Delete s table key).1 = none) := by
  constructor
  · intro h
    refine ⟨?_, ?_, ?_, ?_, ?_⟩
    · simp [Read, readBody, h]
    · intro hc
      simp [Scan, h, Int.not_lt.mpr hc]
    · simp [Update, runWrite, updateBody, h]
    · simp [Delete, runWrite, deleteBody, h]
    · simp [BatchDelete, runWrite, runSeq_deleteBody_missing s table ks h]
  · intro hb hk
    refine ⟨?_, ?_, ?_⟩
    · simp [Read, readBody, hb, hk]
    · simp [Update, runWrite, updateBody, hb, hk]
    · simp [Delete, runWrite, deleteBody, hb]

/-- Witness for C3 at a store holding one table and one key, exercising the
missing-table clause at table `nope` and the missing-key clause at key `kX`. -/
theorem missing_table_and_key_errors_witness :
    Read [("tbl", [("k1", Row.good [("f", [0])])])] "nope" "k1" [] = .error .tableNotFound
    ∧ Scan [("tbl", [("k1", Row.good [("f", [0])])])] "nope" "k1" 2 []
        = .returned (List.replicate 2 none) (some .tableNotFound)
    ∧ Delete [("tbl", [("k1", Row.good [("f", [0])])])] "nope" "k1"
        = (none, [("tbl", [("k1", Row.good [("f", [0])])])])
    ∧ BatchDelete [("tbl", [("k1", Row.good [("f", [0])])])] "nope" ["a", "b"]
        = (none, [("tbl", [("k1", Row.good [("f", [0])])])])
    ∧ Read [("tbl", [("k1", Row.good [("f", [0])])])] "tbl" "kX" [] = .error .keyNotFound
    ∧ Update [("tbl", [("k1", Row.good [("f", [0])])])] "tbl" "kX" [("f", [1])]
        = (some .keyNotFound, [("tbl", [("k1", Row.good [("f", [0])])])]) :=
  ⟨((missing_table_and_key_errors [("tbl", [("k1", Row.good [("f", [0])])])] "nope" "k1"
      [] [("f", [1])] 2 ["a", "b"] []).1 rfl).1,
   ((missing_table_and_key_errors [("tbl", [("k1", Row.good [("f", [0])])])] "nope" "k1"
      [] [("f", [1])] 2 ["a", "b"] []).1 rfl).2.1 (by decide),
   ((missing_table_and_key_errors [("tbl", [("k1", Row.good [("f", [0])])])] "nope" "k1"
      [] [("f", [1])] 2 ["a", "b"] []).1 rfl).2.2.2.1,
   ((missing_table_and_key_errors [("tbl", [("k1", Row.good [("f", [0])])])] "nope" "k1"
      [] [("f", [1])] 2 ["a", "b"] []).1 rfl).2.2.2.2,
   ((missing_table_and_key_errors [("tbl", [("k1", Row.good [("f", [0])])])] "tbl" "kX"
      [] [("f", [1])] 2 ["a", "b"] [("k1", Row.good [("f", [0])])]).2 rfl rfl).1,
   ((missing_table_and_key_errors [("tbl", [("k1", Row.good [("f", [0])])])] "tbl" "kX"
      [] [("f", [1])] 2 ["a", "b"] [("k1", Row.good [("f", [0])])]).2 rfl rfl).2.1⟩

theorem scanLoop_length (fields : List String) (entries : Table) (n : Nat) :
    (scanLoop fields entries n).1.length = n := by
  induction entries generalizing n with
  | nil => cases n <;> simp [scanLoop]
  | cons e rest ih =>
    cases n with
    | zero => simp [scanLoop]
    | succ n =>
      cases hdec : decode e.2 fields with
      | error err => simp [scanLoop, hdec]
      | ok m => simp [scanLoop, hdec, ih]

theorem scanLoop_take (fields : List String) (entries : Table) (n : Nat)
    (hgood : ∀ e ∈ entries.take n, ∃ m, decode e.2 fields = .ok m) :
    ∃ ms : List FieldMap,
      scanLoop fields entries n = (ms.map some ++ List.replicate (n - ms.length) none, none)
      ∧ ms.length = min n entries.length := by
  induction entries generalizing n with
  | nil =>
    refine ⟨[], ?_, by simp⟩
    cases n <;> simp [scanLoop]
  | cons e rest ih =>
    cases n with
    | zero => exact ⟨[], by simp [scanLoop], by simp⟩
    | succ n =>
      obtain ⟨m, hm⟩ := hgood e (by simp)
      obtain ⟨ms, hms, hlen⟩ := ih n (fun x hx => hgood x (by simp [hx]))
      refine ⟨m :: ms, ?_, ?_⟩
      · simp [scanLoop, hm, hms]
      · simp [hlen, Nat.succ_min_succ]

theorem cursorSeek_ge (b : Table) (startKey : String)
    (hs : b.Pairwise (fun x y => keyLt x.1 y.1)) :
    ∀ e ∈ cursorSeek b startKey, keyLe startKey e.1 := by
  induction b with
  | nil => simp [cursorSeek]
  | cons x rest ih =>
    rw [List.pairwise_cons] at hs
    by_cases hx : keyLt x.1 startKey
    · intro e he
      rw [cursorSeek, List.dropWhile_cons, if_pos (by simpa using hx)] at he
      exact ih hs.2 e he
    · intro e he
      rw [cursorSeek, List.dropWhile_cons, if_neg (by simpa using hx)] at he
      rcases List.mem_cons.mp he with heq | he2
      · rw [heq]
        exact le_of_not_lt hx
      · exact le_of_lt (lt_of_le_of_lt (le_of_not_lt hx) (hs.1 e he2))

theorem cursorSeek_sorted (b : Table) (startKey : String)
    (hs : b.Pairwise (fun x y => keyLt x.1 y.1)) (n : Nat) :
    ((cursorSeek b startKey).take n).Pairwise (fun x y => keyLt x.1 y.1) :=
  List.Pairwise.sublist
    ((List.take_sublist n (cursorSeek b startKey)).trans (List.dropWhile_sublist _)) hs

/-- C4: when the scanned range holds fewer than `count` records (and all of
them decode), Scan returns a result container of length exactly `count` whose
entries past the last matched record are unfilled (`none`), not a sequence
truncated to the number of records actually found. -/
theorem scan_pads_short_range (s : Store) (table startKey : String) (count : Int)
    (fields : List String) (b : Table)
    (hb : lookupTable s table = some b)
    (hc : 0 ≤ count)
    (hshort : (cursorSeek b startKey).length < count.toNat)
    (hgood : ∀ e ∈ cursorSeek b startKey, ∃ m, decode e.2 fields = .ok m) :
    ∃ ms : List FieldMap,
      Scan s table startKey count fields
        = .returned (ms.map some ++ List.replicate (count.toNat - ms.length) none) none
      ∧ ms.length = (cursorSeek b startKey).length
      ∧ (ms.map some ++ List.replicate (count.toNat - ms.length) none).length = count.toNat := by
  obtain ⟨ms, hms, hlen⟩ := scanLoop_take fields (cursorSeek b startKey) count.toNat
    (fun e he => hgood e (List.mem_of_mem_take he))
  have hmin : min count.toNat (cursorSeek b startKey).length
      = (cursorSeek b startKey).length := Nat.min_eq_right (le_of_lt hshort)
  refine ⟨ms, ?_, by rw [hlen, hmin], ?_⟩
  · simp [Scan, Int.not_lt.mpr hc, hb, hms]
  · have h := scanLoop_length fields (cursorSeek b startKey) count.toNat
    rw [hms] at h
    exact h

/-- Witness for C4: two records in range, count 3 — the result has length 3
with the trailing entry unfilled. -/
theorem scan_pads_short_range_witness :
    ∃ ms : List FieldMap,
      Scan [("t", [("a", Row.good [("f", [0])]), ("b", Row.good [("f", [1])])])]
        "t" "a" 3 []
        = .returned (ms.map some ++ List.replicate ((3 : Int).toNat - ms.length) none) none
      ∧ ms.length = (cursorSeek [("a", Row.good [("f", [0])]), ("b", Row.good [("f", [1])])]
          "a").length
      ∧ (ms.map some ++ List.replicate ((3 : Int).toNat - ms.length) none).length
          = (3 : Int).toNat :=
  scan_pads_short_range [("t", [("a", Row.good [("f", [0])]), ("b", Row.good [("f", [1])])])]
    "t" "a" 3 [] [("a", Row.good [("f", [0])]), ("b", Row.good [("f", [1])])]
    rfl (by decide) (by decide)
    (fun e he => by
      have he2 : e ∈ [("a", Row.good [("f", [0])]), ("b", Row.good [("f", [1])])] := he
      simp only [List.mem_cons, List.not_mem_nil, or_false] at he2
      rcases he2 with rfl | rfl
      · exact ⟨_, rfl⟩
      · exact ⟨_, rfl⟩)

/-- C5: the records a successful Scan returns (the entries of the seek range
that fit in `count`, in cursor order) are strictly ascending in key, number at
most `count`, and every scanned key is at least the start key. -/
theorem scan_ordered_bounded (s : Store) (table startKey : String) (count : Int)
    (fields : List String) (b : Table)
    (hb : lookupTable s table = some b)
    (hsorted : b.Pairwise (fun x y => keyLt x.1 y.1))
    (hc : 0 ≤ count)
    (hgood : ∀ e ∈ (cursorSeek b startKey).take count.toNat,
      ∃ m, decode e.2 fields = .ok m) :
    ∃ ms : List FieldMap,
      Scan s table startKey count fields
        = .returned (ms.map some ++ List.replicate (count.toNat - ms.length) none) none
      ∧ ms.length = ((cursorSeek b startKey).take count.toNat).length
      ∧ ms.length ≤ count.toNat
      ∧ ((cursorSeek b startKey).take count.toNat).Pairwise (fun x y => keyLt x.1 y.1)
      ∧ ∀ e ∈ (cursorSeek b startKey).take count.toNat, keyLe startKey e.1 := by
  obtain ⟨ms, hms, hlen⟩ := scanLoop_take fields (cursorSeek b startKey) count.toNat hgood
  refine ⟨ms, ?_, ?_, ?_, cursorSeek_sorted b startKey hsorted count.toNat, ?_⟩
  · simp [Scan, Int.not_lt.mpr hc, hb, hms]
  · rw [hlen, List.length_take]
  · rw [hlen]
    exact Nat.min_le_left _ _
  · intro e he
    exact cursorSeek_ge b startKey hsorted e (List.mem_of_mem_take he)

/-- Witness for C5: scenario 4 of the spec — three records scanned from the
first key in ascending order. -/
theorem scan_ordered_bounded_witness :
    ∃ ms : List FieldMap,
      Scan [("t", [("keyA", Row.good [("f", [0])]), ("keyB", Row.good [("f", [1])]),
          ("keyC", Row.good [("f", [2])])])] "t" "keyA" 3 []
        = .returned (ms.map some ++ List.replicate ((3 : Int).toNat - ms.length) none) none
      ∧ ms.length = ((cursorSeek [("keyA", Row.good [("f", [0])]), ("keyB", Row.good [("f", [1])]),
          ("keyC", Row.good [("f", [2])])] "keyA").take (3 : Int).toNat).length
      ∧ ms.length ≤ (3 : Int).toNat
      ∧ (((cursorSeek [("keyA", Row.good [("f", [0])]), ("keyB", Row.good [("f", [1])]),
          ("keyC", Row.good [("f", [2])])] "keyA").take (3 : Int).toNat).Pairwise
            (fun x y => keyLt x.1 y.1))
      ∧ ∀ e ∈ (cursorSeek [("keyA", Row.good [("f", [0])]), ("keyB", Row.good [("f", [1])]),
          ("keyC", Row.good [("f", [2])])] "keyA").take (3 : Int).toNat, keyLe "keyA" e.1 :=
  scan_ordered_bounded [("t", [("keyA", Row.good [("f", [0])]), ("keyB", Row.good [("f", [1])]),
      ("keyC", Row.good [("f", [2])])])] "t" "keyA" 3 []
    [("keyA", Row.good [("f", [0])]), ("keyB", Row.good [("f", [1])]),
      ("keyC", Row.good [("f", [2])])]
    rfl (by decide) (by decide)
    (fun e he => by
      have he2 : e ∈ [("keyA", Row.good [("f", [0])]), ("keyB", Row.good [("f", [1])]),
          ("keyC", Row.good [("f", [2])])] := List.mem_of_mem_take he
      simp only [List.mem_cons, List.not_mem_nil, or_false] at he2
      rcases he2 with rfl | rfl | rfl
      · exact ⟨_, rfl⟩
      · exact ⟨_, rfl⟩
      · exact ⟨_, rfl⟩)

/-- C6: a successful Read with a non-empty field filter returns exactly the
entries of the stored record's decoded map whose names are in the filter:
a name outside the filter yields nothing, and a filter name absent from the
record yields nothing (no fabricated entries). -/
theorem read_filter_projection (s : Store) (table key : String) (fields : List String)
    (b : Table) (M : FieldMap)
    (hb : lookupTable s table = some b)
    (hr : bucketGet b key = some (.good M))
    (hf : fields ≠ []) :
    Read s table key fields = .ok (M.filter (fun p => decide (p.1 ∈ fields)))
    ∧ ∀ f, lookupF (M.filter (fun p => decide (p.1 ∈ fields))) f
        = if f ∈ fields then lookupF M f else none := by
  refine ⟨?_, fun f => lookupF_filter M fields f⟩
  simp [Read, readBody, hb, hr, decode, hf]

/-- Witness for C6: scenario 6 of the spec — three fields stored, two read back
through the filter. -/
theorem read_filter_projection_witness :
    Read [("tbl", [("k1", Row.good [("field1", [1]), ("field2", [2]), ("field3", [3])])])]
        "tbl" "k1" ["field1", "field3"]
      = .ok ([("field1", [1]), ("field2", [2]), ("field3", [3])].filter
          (fun p => decide (p.1 ∈ ["field1", "field3"])))
    ∧ ∀ f, lookupF ([("field1", [1]), ("field2", [2]), ("field3", [3])].filter
          (fun p => decide (p.1 ∈ ["field1", "field3"]))) f
        = if f ∈ ["field1", "field3"]
          then lookupF [("field1", [1]), ("field2", [2]), ("field3", [3])] f else none :=
  read_filter_projection [("tbl", [("k1", Row.good [("field1", [1]), ("field2", [2]),
      ("field3", [3])])])] "tbl" "k1" ["field1", "field3"]
    [("k1", Row.good [("field1", [1]), ("field2", [2]), ("field3", [3])])]
    [("field1", [1]), ("field2", [2]), ("field3", [3])]
    rfl rfl (by decide)

theorem runWrite_unchanged_of_error (s : Store) (body : Store → Except DBErr Store) (e : DBErr)
    (h : (runWrite s body).1 = some e) : (runWrite s body).2 = s := by
  unfold runWrite at h ⊢
  cases hb : body s with
  | ok s2 => rw [hb] at h; simp at h
  | error e2 => rfl

theorem runSeq_first_error (s : Store) (e : DBErr) (fs1 fs2 : List (Store → Except DBErr Store))
    (f : Store → Except DBErr Store) (s1 : Store)
    (hok : runSeq fs1 s = .ok s1) (herr : f s1 = .error e) :
    runSeq (fs1 ++ f :: fs2) s = .error e := by
  induction fs1 generalizing s with
  | nil =>
    simp only [runSeq, Except.ok.injEq] at hok
    subst hok
    simp [runSeq, herr]
  | cons g gs ih =>
    rw [runSeq] at hok
    cases hg : g s with
    | error e2 => rw [hg] at hok; simp at hok
    | ok s2 =>
      rw [hg] at hok
      rw [List.cons_append, runSeq, hg]
      exact ih s2 hok

/-- C7: every write operation that returns an error leaves the store
unchanged — Update, Insert, Delete and the batch variants roll their single
transaction back on any error; and for any batch whose per-key bodies first
fail at some position, that first error is what the call returns, with the
store unchanged. -/
theorem write_error_rollback (s : Store) (table key : String) (values : FieldMap)
    (ks : List String) (vs : List FieldMap) (e : DBErr) :
    ((Update s table key values).1 = some e → (Update s table key values).2 = s)
    ∧ ((Insert s table key values).1 = some e → (Insert s table key values).2 = s)
    ∧ ((Delete s table key).1 = some e → (Delete s table key).2 = s)
    ∧ ((BatchInsert s table ks vs).1 = some e → (BatchInsert s table ks vs).2 = s)
    ∧ ((BatchUpdate s table ks vs).1 = some e → (BatchUpdate s table ks vs).2 = s)
    ∧ ((BatchDelete s table ks).1 = some e → (BatchDelete s table ks).2 = s)
    ∧ (∀ (fs1 fs2 : List (Store → Except DBErr Store)) (f : Store → Except DBErr Store)
        (s1 : Store), runSeq fs1 s = .ok s1 → f s1 = .error e →
        runWrite s (runSeq (fs1 ++ f :: fs2)) = (some e, s)) :=
  ⟨runWrite_unchanged_of_error s _ e,
   runWrite_unchanged_of_error s _ e,
   runWrite_unchanged_of_error s _ e,
   runWrite_unchanged_of_error s _ e,
   runWrite_unchanged_of_error s _ e,
   runWrite_unchanged_of_error s _ e,
   fun fs1 fs2 f s1 hok herr => by
     unfold runWrite
     rw [runSeq_first_error s e fs1 fs2 f s1 hok herr]⟩

/-- Witness for C7: an Update addressing an undecodable row errors with
CodecError and leaves the store exactly as it was, and a batch whose second
per-key body fails returns that first error with the store unchanged. -/
theorem write_error_rollback_witness :
    (Update [("t", [("k", Row.bad)])] "t" "k" [("f", [1])]).2 = [("t", [("k", Row.bad)])]
    ∧ runWrite [("t", [("k", Row.bad)])]
        (runSeq ([deleteBody "t" "x"] ++ updateBody "t" "k" [("f", [1])] :: []))
      = (some .codecError, [("t", [("k", Row.bad)])]) :=
  ⟨(write_error_rollback [("t", [("k", Row.bad)])] "t" "k" [("f", [1])] [] [] .codecError).1 rfl,
   (write_error_rollback [("t", [("k", Row.bad)])] "t" "k" [("f", [1])] [] []
      .codecError).2.2.2.2.2.2 [deleteBody "t" "x"] [] (updateBody "t" "k" [("f", [1])])
      [("t", [("k", Row.bad)])] rfl rfl⟩

theorem batchReadLoop_ok (s : Store) (table : String) (fields : List String)
    (ks : List String) (ms : List FieldMap)
    (h : batchReadLoop s table fields ks = .ok ms) :
    ms.length = ks.length
    ∧ ∀ (i : Nat) (hi : i < ks.length) (hm : i < ms.length),
        readBody s table (ks.get ⟨i, hi⟩) fields = .ok (ms.get ⟨i, hm⟩) := by
  induction ks generalizing ms with
  | nil =>
    simp only [batchReadLoop, Except.ok.injEq] at h
    subst h
    refine ⟨rfl, ?_⟩
    intro i hi
    simp at hi
  | cons k rest ih =>
    rw [batchReadLoop] at h
    cases h1 : readBody s table k fields with
    | error e => rw [h1] at h; simp at h
    | ok m =>
      rw [h1] at h
      cases h2 : batchReadLoop s table fields rest with
      | error e => rw [h2] at h; simp at h
      | ok ms2 =>
        rw [h2] at h
        simp only [Except.ok.injEq] at h
        subst h
        obtain ⟨hlen, hidx⟩ := ih ms2 h2
        refine ⟨by simp [hlen], ?_⟩
        intro i hi hm
        cases i with
        | zero => simpa using h1
        | succ i =>
          simpa using hidx i (by simpa using hi) (by simpa using hm)

theorem batchReadLoop_first_error (s : Store) (table : String) (fields : List String)
    (pre post : List String) (k : String) (e : DBErr)
    (hok : ∀ k2 ∈ pre, ∃ m, readBody s table k2 fields = .ok m)
    (herr : readBody s table k fields = .error e) :
    batchReadLoop s table fields (pre ++ k :: post) = .error e := by
  induction pre with
  | nil => simp [batchReadLoop, herr]
  | cons k2 rest ih =>
    obtain ⟨m, hm⟩ := hok k2 (by simp)
    rw [List.cons_append, batchReadLoop, hm,
      ih (fun x hx => hok x (by simp [hx]))]

/-- C8: a successful BatchRead returns one per-key Read result for each input
key, in the same order as the input key list; and when the Read of some key
fails (all keys before it succeeding), the whole batch read returns that error
and no partial result list. -/
theorem batch_read_order_and_abort (s : Store) (table : String) (ks : List String)
    (fields : List String) :
    (∀ ms : List FieldMap, BatchRead s table ks fields = .ok ms →
      ms.length = ks.length
      ∧ ∀ (i : Nat) (hi : i < ks.length) (hm : i < ms.length),
          Read s table (ks.get ⟨i, hi⟩) fields = .ok (ms.get ⟨i, hm⟩))
    ∧ ∀ (pre post : List String) (k : String) (e : DBErr), ks = pre ++ k :: post →
        (∀ k2 ∈ pre, ∃ m, Read s table k2 fields = .ok m) →
        Read s table k fields = .error e →
        BatchRead s table ks fields = .error e := by
  constructor
  · intro ms h
    exact batchReadLoop_ok s table fields ks ms h
  · intro pre post k e hks hok herr
    rw [hks]
    exact batchReadLoop_first_error s table fields pre post k e hok herr

/-- Witness for C8: scenario 3 of the spec read back in order, and a batch
aborted by a missing second key. -/
theorem batch_read_order_and_abort_witness :
    ([[("f", [1])], [("f", [2])]] : List FieldMap).length = (["k1", "k2"] : List String).length
    ∧ (∀ (i : Nat) (hi : i < (["k1", "k2"] : List String).length)
        (hm : i < ([[("f", [1])], [("f", [2])]] : List FieldMap).length),
        Read [("t", [("k1", Row.good [("f", [1])]), ("k2", Row.good [("f", [2])])])] "t"
            ((["k1", "k2"] : List String).get ⟨i, hi⟩) []
          = .ok (([[("f", [1])], [("f", [2])]] : List FieldMap).get ⟨i, hm⟩))
    ∧ BatchRead [("t", [("k1", Row.good [("f", [1])]), ("k2", Row.good [("f", [2])])])] "t"
        ["k1", "kX", "k2"] [] = .error .keyNotFound :=
  ⟨((batch_read_order_and_abort [("t", [("k1", Row.good [("f", [1])]),
        ("k2", Row.good [("f", [2])])])] "t" ["k1", "k2"] []).1
      [[("f", [1])], [("f", [2])]] rfl).1,
   ((batch_read_order_and_abort [("t", [("k1", Row.good [("f", [1])]),
        ("k2", Row.good [("f", [2])])])] "t" ["k1", "k2"] []).1
      [[("f", [1])], [("f", [2])]] rfl).2,
   (batch_read_order_and_abort [("t", [("k1", Row.good [("f", [1])]),
        ("k2", Row.good [("f", [2])])])] "t" ["k1", "kX", "k2"] []).2
     ["k1"] ["k2"] "kX" .keyNotFound rfl
     (fun k2 hk2 => by
       have h2 : k2 ∈ ["k1"] := hk2
       simp only [List.mem_cons, List.not_mem_nil, or_false] at h2
       subst h2
       exact ⟨_, rfl⟩)
     rfl⟩

theorem scanLoop_error_at (fields : List String) (k : String) (rest : Table) (gp : Table)
    (n : Nat) (hlen : gp.length < n)
    (hgood : ∀ e ∈ gp, ∃ m, decode e.2 fields = .ok m) :
    ∃ ms : List FieldMap,
      scanLoop fields (gp ++ (k, Row.bad) :: rest) n
        = (ms.map some ++ List.replicate (n - ms.length) none, some .codecError)
      ∧ ms.length = gp.length := by
  induction gp generalizing n with
  | nil =>
    cases n with
    | zero => exact absurd hlen (by simp)
    | succ n => exact ⟨[], by simp [scanLoop, decode], rfl⟩
  | cons x gp ih =>
    cases n with
    | zero => exact absurd hlen (by simp)
    | succ n =>
      obtain ⟨m, hm⟩ := hgood x (by simp)
      obtain ⟨ms, hms, hl⟩ := ih n (Nat.lt_of_succ_lt_succ (by simpa using hlen))
        (fun y hy => hgood y (List.mem_cons_of_mem x hy))
      exact ⟨m :: ms, by simp [scanLoop, hm, hms], by simp [hl]⟩

/-- C9: a decode error partway through a Scan over an existing table surfaces
the error together with the length-`count` result container whose entries
before the failing position are already filled with the decoded records —
partial results are visible at the Scan interface alongside the error. -/
theorem scan_partial_results_on_error (s : Store) (table startKey : String) (count : Int)
    (fields : List String) (b gp rest : Table) (k : String)
    (hb : lookupTable s table = some b)
    (hc : 0 ≤ count)
    (hsplit : cursorSeek b startKey = gp ++ (k, Row.bad) :: rest)
    (hlen : gp.length < count.toNat)
    (hgood : ∀ e ∈ gp, ∃ m, decode e.2 fields = .ok m) :
    ∃ ms : List FieldMap,
      Scan s table startKey count fields
        = .returned (ms.map some ++ List.replicate (count.toNat - ms.length) none)
            (some .codecError)
      ∧ ms.length = gp.length
      ∧ (ms.map some ++ List.replicate (count.toNat - ms.length) none).length
          = count.toNat := by
  obtain ⟨ms, hms, hl⟩ := scanLoop_error_at fields k rest gp count.toNat hlen hgood
  refine ⟨ms, ?_, hl, ?_⟩
  · rw [← hsplit] at hms
    simp [Scan, Int.not_lt.mpr hc, hb, hms]
  · have h := scanLoop_length fields (cursorSeek b startKey) count.toNat
    rw [hsplit, hms] at h
    exact h

/-- Witness for C9: three entries from the seek position, the second of which
does not decode — the result has the first entry filled and the rest unfilled,
alongside the codec error. -/
theorem scan_partial_results_on_error_witness :
    ∃ ms : List FieldMap,
      Scan [("t", [("a", Row.good [("f", [0])]), ("b", Row.bad), ("c", Row.good [])])]
          "t" "a" 3 []
        = .returned (ms.map some ++ List.replicate ((3 : Int).toNat - ms.length) none)
            (some .codecError)
      ∧ ms.length = ([("a", Row.good [("f", [0])])] : Table).length
      ∧ (ms.map some ++ List.replicate ((3 : Int).toNat - ms.length) none).length
          = (3 : Int).toNat :=
  scan_partial_results_on_error
    [("t", [("a", Row.good [("f", [0])]), ("b", Row.bad), ("c", Row.good [])])] "t" "a" 3 []
    [("a", Row.good [("f", [0])]), ("b", Row.bad), ("c", Row.good [])]
    [("a", Row.good [("f", [0])])] [("c", Row.good [])] "b"
    rfl (by decide) rfl (by decide)
    (fun e he => by
      have h2 : e ∈ [("a", Row.good [("f", [0])])] := he
      simp only [List.mem_cons, List.not_mem_nil, or_false] at h2
      subst h2
      exact ⟨_, rfl⟩)

/-- C10: Scan is total only for non-negative counts — a negative count faults
at the result-container allocation before the transaction opens, returning
neither a value nor an error, while every non-negative count returns normally
with a result container of length exactly the count. -/
theorem scan_count_totality (s : Store) (table startKey : String) (count : Int)
    (fields : List String) :
    (count < 0 → Scan s table startKey count fields = .panicked)
    ∧ (0 ≤ count → ∃ (res : List (Option FieldMap)) (err : Option DBErr),
        Scan s table startKey count fields = .returned res err
        ∧ res.length = count.toNat) := by
  constructor
  · intro h
    simp [Scan, h]
  · intro h
    cases hb : lookupTable s table with
    | none =>
      refine ⟨List.replicate count.toNat none, some .tableNotFound, ?_, by simp⟩
      simp [Scan, Int.not_lt.mpr h, hb]
    | some b =>
      refine ⟨(scanLoop fields (cursorSeek b startKey) count.toNat).1,
        (scanLoop fields (cursorSeek b startKey) count.toNat).2, ?_,
        scanLoop_length fields (cursorSeek b startKey) count.toNat⟩
      simp [Scan, Int.not_lt.mpr h, hb]

/-- Witness for C10: a call with count -5 panics; a call with count 2 on an
empty store returns a length-2 container (with the TableNotFound error). -/
theorem scan_count_totality_witness :
    Scan [] "t" "k" (-5) [] = .panicked
    ∧ ∃ (res : List (Option FieldMap)) (err : Option DBErr),
        Scan [] "t" "k" 2 [] = .returned res err ∧ res.length = (2 : Int).toNat :=
  ⟨(scan_count_totality [] "t" "k" (-5) []).1 (by decide),
   (scan_count_totality [] "t" "k" 2 []).2 (by decide)⟩

end FreDB
